import Mathlib

/-!
# github-releases-notifier: the startup sequence and consumer loop of `main`

`src/main.go` is embedded as a function from everything `main` reads from its
surroundings (the parsed environment and flags, the outcome of `os.Stat` and
`readFile`, the releases that arrive on the channel, the outcome of each
`SlackSender.Send`) to the ordered list of effects it performs (log events that
pass the level filter, the start of `Checker.Run`, the calls to `Send`).

The scheduler `Checker.Run` itself lives outside `src/main.go`; it is embedded
from the specification (sections 4.1 and 4.2) further down.
-/

namespace ReleasesNotifier

/-! ## Data model -/

/-- Go `error` value, as far as `main` observes it: its text and what
`os.IsNotExist` answers for it. A nil error is `none : Option GoError`. -/
structure GoError where
  msg : String
  notExist : Bool
  deriving DecidableEq, Repr

/-- Go `time.Duration`: a signed count of nanoseconds. -/
abbrev Duration := Int

/-- Go `time.Hour`. -/
def Hour : Duration := 60 * (60 * (1000 * (1000 * 1000)))

/-- Config of env and args. -/
structure Config where
  File : String
  GithubToken : String
  Interval : Duration
  LogLevel : String
  Repositories : List String
  SlackHook : String
  deriving DecidableEq, Repr

/-- Modelled from the spec: the `Repository` type carried by the `releases`
channel is declared outside `src/main.go`; its fields are those of the Release
record of the spec (repository identifier, release identifier, title, publication
timestamp). -/
structure Repository where
  name : String
  release : String
  title : String
  publishedAt : Nat
  deriving DecidableEq, Repr

/-- The four severities of `go-kit/log/level`. -/
inductive Level where
  | debug
  | info
  | warn
  | error
  deriving DecidableEq, Repr

/-- One observable effect of `main`. -/
inductive Event where
  | log (lvl : Level) (keyvals : List (String × String))
  | goRun (interval : Duration) (repositories : List String)
  | send (repository : Repository)
  deriving DecidableEq, Repr

/-- What `arg.MustParse` finds for each field of `Config`: the value of the
environment variable named in the field tag and the value given on the command
line, each absent or present. `Repositories` has no environment variable and
collects every `-r` occurrence. -/
structure Supplied where
  fileArg : Option String
  githubTokenEnv : Option String
  githubTokenArg : Option String
  intervalEnv : Option Duration
  intervalArg : Option Duration
  logLevelEnv : Option String
  logLevelArg : Option String
  repositoriesArg : List String
  slackHookEnv : Option String
  slackHookArg : Option String

/-- Everything `main` reads from outside. `caseTable` is the Unicode lower-case
mapping of the Go `unicode` package on non-ASCII runes; `stat` is the error
result of `os.Stat`; `readFile` is the result pair of the
`readFile` helper of the repository; `emitted` are the values received from the `releases`
channel; `sendResult k r` is what the `k`-th call `slack.Send(r)` returns.
The channel is never closed, so the loop of `main` does not end by itself:
`emitted` is any finite run of received values. -/
structure World where
  supplied : Supplied
  caseTable : Char → Char
  stat : String → Option GoError
  readFile : String → List String × Option GoError
  emitted : List Repository
  sendResult : Nat → Repository → Option GoError

/-! ## Configuration -/

/-- The literal `Config` built in `main` before parsing. -/
def defaults : Config :=
  { File := "output", GithubToken := "", Interval := Hour, LogLevel := "info",
    Repositories := [], SlackHook := "" }

/-- Overwrite `cur` when a value is present. -/
def setFrom {α : Type} (v : Option α) (cur : α) : α :=
  match v with
  | some x => x
  | none => cur

/-- Effect of `arg.MustParse(&c)` when parsing succeeds: environment values are
applied first, command line values after them; a field nobody sets keeps what
it held. A failed parse ends the process before anything else happens. -/
def MustParse (c : Config) (s : Supplied) : Config :=
  { File := setFrom s.fileArg c.File
    GithubToken := setFrom s.githubTokenArg (setFrom s.githubTokenEnv c.GithubToken)
    Interval := setFrom s.intervalArg (setFrom s.intervalEnv c.Interval)
    LogLevel := setFrom s.logLevelArg (setFrom s.logLevelEnv c.LogLevel)
    Repositories := match s.repositoriesArg with
      | [] => c.Repositories
      | r :: rs => r :: rs
    SlackHook := setFrom s.slackHookArg (setFrom s.slackHookEnv c.SlackHook) }

/-! ## Log level -/

/-- Go `unicode.ToLower` on one rune: ASCII is handled inline, everything else
goes through the case table. -/
def unicodeToLower (table : Char → Char) (r : Char) : Char :=
  if r.toNat < 128 then
    if 65 ≤ r.toNat ∧ r.toNat ≤ 90 then Char.ofNat (r.toNat + 32) else r
  else table r

/-- Go `strings.ToLower`. -/
def ToLower (table : Char → Char) (s : String) : String :=
  String.mk (s.data.map (unicodeToLower table))

/-- The `switch strings.ToLower(c.LogLevel)` of `main`: the threshold handed to
`level.NewFilter`. -/
def selectLevel (table : Char → Char) (logLevel : String) : Level :=
  if ToLower table logLevel = "debug" then Level.debug
  else if ToLower table logLevel = "warn" then Level.warn
  else if ToLower table logLevel = "error" then Level.error
  else Level.info

/-- Which severities `level.NewFilter(logger, level.AllowX())` lets through. -/
def allows : Level → Level → Bool
  | Level.debug, _ => true
  | Level.info, lvl => decide (lvl ≠ Level.debug)
  | Level.warn, lvl => decide (lvl = Level.warn ∨ lvl = Level.error)
  | Level.error, lvl => decide (lvl = Level.error)

/-- A call `level.X(logger).Log(keyvals...)` on the filtered logger. -/
def logAt (threshold lvl : Level) (keyvals : List (String × String)) : List Event :=
  if allows threshold lvl then [Event.log lvl keyvals] else []

/-! ## The repository file -/

/-- The `for i, line := range lines` loop: one info event and one append per
line. `i` is the index of the first remaining line, `total` is `len(lines)`. -/
def appendLines (threshold : Level) (total : Nat) :
    Nat → List String → List String → List String × List Event
  | _, [], repos => (repos, [])
  | i, line :: rest, repos =>
    let readFileMsg := "reading repository configuration file: line " ++ toString (i + 1)
      ++ " of total " ++ toString total
    let ev := logAt threshold Level.info [("msg", readFileMsg)]
    let r := appendLines threshold total (i + 1) rest (repos ++ [line])
    (r.1, ev ++ r.2)

/-- The `if _, err := os.Stat(c.File); err == nil ... else if os.IsNotExist(err)`
statement: returns the new `c.Repositories` and the events logged. -/
def fileStage (threshold : Level) (c : Config) (w : World) : List String × List Event :=
  match w.stat c.File with
  | none =>
    let found := logAt threshold Level.info [("msg", "found repository configuration file")]
    let res := w.readFile c.File
    let failed := match res.2 with
      | some err => logAt threshold Level.error [("%s", err.msg)]
      | none => []
    let r := appendLines threshold res.1.length 0 res.1 c.Repositories
    (r.1, found ++ failed ++ r.2)
  | some err =>
    if err.notExist then
      (c.Repositories,
        logAt threshold Level.warn
          [("msg", "no configuration file exists, continuing and only using flagged arguments")]
        ++ logAt threshold Level.warn [("err", err.msg)])
    else (c.Repositories, [])

/-! ## Delivery -/

/-- The `if c.SlackHook == ""` check. -/
def hookCheck (threshold : Level) (c : Config) : List Event :=
  if c.SlackHook = "" then
    logAt threshold Level.error
      [("err", "missing Slack Webhook URL; cannot create Slack notifications")]
  else []

/-- The `for repository := range releases` loop; `k` counts the calls to `Send`
made so far. -/
def consume (threshold : Level) (sendResult : Nat → Repository → Option GoError) :
    Nat → List Repository → List Event
  | _, [] => []
  | k, repository :: rest =>
    let failed := match sendResult k repository with
      | some err =>
        logAt threshold Level.warn
          [("msg", "failed to send release to messenger"), ("err", err.msg)]
      | none => []
    Event.send repository :: (failed ++ consume threshold sendResult (k + 1) rest)

/-! ## main -/

/-- The configuration after `arg.MustParse`. -/
def config (w : World) : Config := MustParse defaults w.supplied

/-- The threshold of the filtered logger. -/
def threshold (w : World) : Level := selectLevel w.caseTable (config w).LogLevel

/-- The list `c.Repositories` at the call `checker.Run(c.Interval, c.Repositories, releases)`. -/
def registry (w : World) : List String := (fileStage (threshold w) (config w) w).1

/-- Events logged while handling the repository file. -/
def fileEvents (w : World) : List Event := (fileStage (threshold w) (config w) w).2

/-- The effects of `main`, in program order, up to the moment the values of
`w.emitted` have been received and handled. -/
def main (w : World) : List Event :=
  fileEvents w
    ++ [Event.goRun (config w).Interval (registry w)]
    ++ hookCheck (threshold w) (config w)
    ++ logAt (threshold w) Level.info [("msg", "waiting for new releases")]
    ++ consume (threshold w) w.sendResult 0 w.emitted

/-! ## Observations on a trace -/

/-- The releases passed to `Send`, in call order. -/
def sends : List Event → List Repository
  | [] => []
  | Event.send r :: es => r :: sends es
  | _ :: es => sends es

/-- The `(interval, repositories)` arguments of every start of `Checker.Run`. -/
def runCalls : List Event → List (Duration × List String)
  | [] => []
  | Event.goRun i rs :: es => (i, rs) :: runCalls es
  | _ :: es => runCalls es

/-- The key/value lists of the error-level events. -/
def errorLogs : List Event → List (List (String × String))
  | [] => []
  | Event.log Level.error kv :: es => kv :: errorLogs es
  | _ :: es => errorLogs es

/-! ## The scheduler and change detector (from the specification) -/

/-- Result of one ReleaseQuery: the releases newest first, or an error. -/
abbrev QueryResult := Except GoError (List Repository)

/-- Modelled from the spec: the per-repository watermark memory of `Checker`
(section 3), which is not in `src/main.go`: the most recently reported release,
`none` before the first observation. The specification calls the identifier of
that release the Watermark; the record is kept whole because the detector has
to tell which releases are strictly newer than it. -/
abbrev Watermarks := String → Option Repository

/-- The watermark memory at process start. -/
def noWatermarks : Watermarks := fun _ => none

/-- The release identifiers of a list of releases. -/
def tags (l : List Repository) : List String := l.map Repository.release

/-- Modelled from the spec: the Change Detector of `Checker` (section 4.2), which
is not in `src/main.go`. Given the watermark and a newest-first query result it
returns the new watermark and the releases to emit. An empty result changes
nothing; a first observation records the newest release and emits nothing;
otherwise the releases published strictly later than the watermark are emitted,
oldest first, and the watermark moves to the newest of them. -/
def detect (wm : Option Repository) (result : List Repository) :
    Option Repository × List Repository :=
  match result with
  | [] => (wm, [])
  | newest :: _ =>
    match wm with
    | none => (some newest, [])
    | some seen =>
      match result.filter (fun r => decide (seen.publishedAt < r.publishedAt)) with
      | [] => (wm, [])
      | r :: rs => (some r, (r :: rs).reverse)

/-- Modelled from the spec: the per-repository step of the Poll Scheduler
(section 4.1), which is not in `src/main.go`. A failed query is skipped and
leaves the watermark alone; a successful one goes through the Change Detector. -/
def evaluate (wm : Watermarks) (repo : String) (q : QueryResult) :
    Watermarks × List Repository :=
  match q with
  | Except.error _ => (wm, [])
  | Except.ok result =>
    let d := detect (wm repo) result
    (fun r => if r = repo then d.1 else wm r, d.2)

/-- Modelled from the spec: one pass of the Poll Scheduler (section 4.1) over the
registry, which is not in `src/main.go`. `query` answers ReleaseQuery during
this pass. Returns the watermarks after the pass and the releases emitted by
it, in emission order. -/
def pass (query : String → QueryResult) :
    List String → Watermarks → Watermarks × List Repository
  | [], wm => (wm, [])
  | repo :: rest, wm =>
    let e := evaluate wm repo (query repo)
    let r := pass query rest e.1
    (r.1, e.2 ++ r.2)

/-- Modelled from the spec: `Checker.Run` (sections 4.1 to 4.3), which is not in
`src/main.go`. The scheduler has no normal termination; the last argument is
the number of passes completed so far, `query k` answers ReleaseQuery during
pass `k`, and the interval only spaces the passes in time. Returns the
watermarks and everything put on the `releases` channel by then. -/
def Checker.Run (query : Nat → String → QueryResult) (interval : Duration)
    (repositories : List String) : Nat → Watermarks × List Repository
  | 0 => (noWatermarks, [])
  | k + 1 =>
    let before := Checker.Run query interval repositories k
    let p := pass (query k) repositories before.1
    (p.1, before.2 ++ p.2)

/-- The releases of the repository `repo` among the emitted ones. -/
def emittedFor (repo : String) (out : List Repository) : List Repository :=
  out.filter (fun r => decide (r.name = repo))

/-- What the scheduler maintains for repository `X`: no identifier was emitted
twice for it, and every release emitted for it came from a query result of `X`
during the first `N` passes and is not newer than the watermark of `X`. -/
def emissionInvariant (query : Nat → String → QueryResult) (X : String) (N : Nat)
    (wm : Watermarks) (out : List Repository) : Prop :=
  (tags (emittedFor X out)).Nodup ∧
    ∀ r ∈ emittedFor X out,
      (∃ j L, j < N ∧ query j X = Except.ok L ∧ r ∈ L)
        ∧ ∃ w, wm X = some w ∧ r.publishedAt ≤ w.publishedAt

/-- A query result is newest first: publication times never increase. -/
def newestFirst (l : List Repository) : Prop :=
  List.Pairwise (fun a b => b.publishedAt ≤ a.publishedAt) l

instance (l : List Repository) : Decidable (newestFirst l) := by
  unfold newestFirst; infer_instance

/-- Two characters are the same letter up to ASCII case. -/
def caseVariant (a b : Char) : Prop :=
  a = b ∨ (65 ≤ a.toNat ∧ a.toNat ≤ 90 ∧ b.toNat = a.toNat + 32)
    ∨ (65 ≤ b.toNat ∧ b.toNat ≤ 90 ∧ a.toNat = b.toNat + 32)

/-- Two strings differ only in the case of ASCII letters. -/
def differInCaseOnly (s t : String) : Prop :=
  s.data.length = t.data.length ∧ ∀ p ∈ s.data.zip t.data, caseVariant p.1 p.2

instance (a b : Char) : Decidable (caseVariant a b) := by
  unfold caseVariant; infer_instance

instance (s t : String) : Decidable (differInCaseOnly s t) := by
  unfold differInCaseOnly; infer_instance

/-! ## Worlds used to evaluate `main` -/

/-- Nothing supplied in the environment or on the command line. -/
def nothingSupplied : Supplied :=
  { fileArg := none, githubTokenEnv := none, githubTokenArg := none, intervalEnv := none,
    intervalArg := none, logLevelEnv := none, logLevelArg := none, repositoriesArg := [],
    slackHookEnv := none, slackHookArg := none }

/-- A permission failure, for which `os.IsNotExist` answers false. -/
def permissionDenied : GoError := { msg := "permission denied", notExist := false }

/-- The failure of `os.Stat` on a missing file. -/
def noSuchFile : GoError := { msg := "no such file or directory", notExist := true }

/-- A release of the repository `o/r`. -/
def rel (tag : String) (at_ : Nat) : Repository :=
  { name := "o/r", release := tag, title := "", publishedAt := at_ }

/-- A world with one repository on the command line, a webhook, two releases
arriving on the channel and a `Send` that fails on its first call only. -/
def baseWorld : World :=
  { supplied := { nothingSupplied with repositoriesArg := ["a/b"], slackHookEnv := some "https://hook" }
    caseTable := id
    stat := fun _ => some noSuchFile
    readFile := fun _ => ([], some noSuchFile)
    emitted := [rel "v1" 1, rel "v2" 2]
    sendResult := fun k _ => if k = 0 then some permissionDenied else none }

/-- A read failure reported by `readFile`. -/
def readFailed : GoError := { msg := "read output: input/output error", notExist := false }

/-- The file exists and holds two lines; one repository comes from the command
line and no webhook is configured. -/
def fileWorld : World :=
  { baseWorld with
    supplied := { nothingSupplied with repositoriesArg := ["a/b"] }
    stat := fun _ => none
    readFile := fun _ => (["c/d", "e/f"], none) }

/-- The call `os.Stat` fails with a permission error. -/
def statFailsWorld : World :=
  { baseWorld with stat := fun _ => some permissionDenied }

/-- The file exists and `readFile` returns one line together with an error. -/
def partialReadWorld : World :=
  { baseWorld with stat := fun _ => none, readFile := fun _ => (["x/y"], some readFailed) }

/-- The file exists and `readFile` returns no line and an error. -/
def emptyReadWorld : World :=
  { baseWorld with stat := fun _ => none, readFile := fun _ => ([], some readFailed) }

/-- The interval comes from the environment, the log level from the command line. -/
def tunedWorld : World :=
  { baseWorld with
    supplied := { nothingSupplied with intervalEnv := some (5 * (60 * (1000 * (1000 * 1000)))),
                                       logLevelArg := some "WaRn" } }

/-- The repository `o/r` over four passes: `b` is published, then `a` is
published again with a later time, then `b` is. Every result is newest first
and free of duplicates. -/
def republishQuery : Nat → String → QueryResult
  | 0, _ => Except.ok [rel "a" 1]
  | 1, _ => Except.ok [rel "b" 2, rel "a" 1]
  | 2, _ => Except.ok [rel "a" 3, rel "b" 2]
  | _, _ => Except.ok [rel "b" 4, rel "a" 3]

/-- The repository `o/r` with a history that only grows; every other repository
fails to answer. -/
def growingQuery (k : Nat) (repo : String) : QueryResult :=
  if repo = "o/r" then
    match k with
    | 0 => Except.ok [rel "a" 1]
    | 1 => Except.ok [rel "b" 2, rel "a" 1]
    | _ => Except.ok [rel "d" 4, rel "c" 3, rel "b" 2, rel "a" 1]
  else Except.error permissionDenied

/-- The repository `o/r` seen through a window of two releases, the title of `b`
edited between the first two passes; every other repository fails to answer. -/
def windowQuery (k : Nat) (repo : String) : QueryResult :=
  if repo = "o/r" then
    match k with
    | 0 => Except.ok [rel "b" 2, rel "a" 1]
    | 1 => Except.ok [rel "c" 3, { rel "b" 2 with title := "edited" }]
    | _ => Except.ok [rel "d" 4, rel "c" 3]
  else Except.error permissionDenied

/-- The repository `o/r` with three releases at the first pass and five from the
second on; every other repository fails to answer. -/
def catchUpQuery (k : Nat) (repo : String) : QueryResult :=
  if repo = "o/r" then
    match k with
    | 0 => Except.ok [rel "v3" 3, rel "v2" 2, rel "v1" 1]
    | _ => Except.ok [rel "v5" 5, rel "v4" 4, rel "v3" 3, rel "v2" 2, rel "v1" 1]
  else Except.error permissionDenied

/-- Watermarks in the middle of a run: `a` was reported for `o/r` and `z` for
every other repository. -/
def someWatermarks : Watermarks :=
  fun repo => if repo = "o/r" then some (rel "a" 1) else some (rel "z" 0)

/-! ## Lemmas on traces -/

@[simp] theorem sends_append (a b : List Event) : sends (a ++ b) = sends a ++ sends b := by
  induction a with
  | nil => rfl
  | cons e es ih => cases e <;> simp [sends, ih]

@[simp] theorem runCalls_append (a b : List Event) :
    runCalls (a ++ b) = runCalls a ++ runCalls b := by
  induction a with
  | nil => rfl
  | cons e es ih => cases e <;> simp [runCalls, ih]

@[simp] theorem errorLogs_append (a b : List Event) :
    errorLogs (a ++ b) = errorLogs a ++ errorLogs b := by
  induction a with
  | nil => rfl
  | cons e es ih =>
    cases e with
    | log lvl kv => cases lvl <;> simp [errorLogs, ih]
    | goRun i rs => simp [errorLogs, ih]
    | send r => simp [errorLogs, ih]

@[simp] theorem sends_logAt (th lvl : Level) (kv : List (String × String)) :
    sends (logAt th lvl kv) = [] := by
  unfold logAt; split <;> rfl

@[simp] theorem runCalls_logAt (th lvl : Level) (kv : List (String × String)) :
    runCalls (logAt th lvl kv) = [] := by
  unfold logAt; split <;> rfl

theorem allows_error (th : Level) : allows th Level.error = true := by
  cases th <;> rfl

@[simp] theorem errorLogs_logAt_error (th : Level) (kv : List (String × String)) :
    errorLogs (logAt th Level.error kv) = [kv] := by
  simp [logAt, allows_error, errorLogs]

@[simp] theorem errorLogs_logAt_info (th : Level) (kv : List (String × String)) :
    errorLogs (logAt th Level.info kv) = [] := by
  unfold logAt; split <;> rfl

@[simp] theorem errorLogs_logAt_warn (th : Level) (kv : List (String × String)) :
    errorLogs (logAt th Level.warn kv) = [] := by
  unfold logAt; split <;> rfl

/-! ## The repository file -/

theorem appendLines_fst (th : Level) (total : Nat) (lines : List String) :
    ∀ (i : Nat) (repos : List String),
      (appendLines th total i lines repos).1 = repos ++ lines := by
  induction lines with
  | nil => intro i repos; simp [appendLines]
  | cons line rest ih => intro i repos; simp [appendLines, ih]

theorem appendLines_quiet (th : Level) (total : Nat) (lines : List String) :
    ∀ (i : Nat) (repos : List String),
      sends (appendLines th total i lines repos).2 = []
      ∧ runCalls (appendLines th total i lines repos).2 = []
      ∧ errorLogs (appendLines th total i lines repos).2 = [] := by
  induction lines with
  | nil => intro i repos; simp [appendLines, sends, runCalls, errorLogs]
  | cons line rest ih =>
    intro i repos
    have h := ih (i + 1) (repos ++ [line])
    simp [appendLines, h.1, h.2.1, h.2.2]

theorem fileStage_quiet (th : Level) (c : Config) (w : World) :
    sends (fileStage th c w).2 = [] ∧ runCalls (fileStage th c w).2 = [] := by
  unfold fileStage
  split
  · have h := appendLines_quiet th (w.readFile c.File).1.length (w.readFile c.File).1 0
      c.Repositories
    constructor
    · simp only [sends_append, sends_logAt, h.1, List.append_nil, List.nil_append]
      split <;> simp [sends]
    · simp only [runCalls_append, runCalls_logAt, h.2.1, List.append_nil, List.nil_append]
      split <;> simp [runCalls]
  · split <;> simp [sends, runCalls]

/-! ## The consumer loop -/

theorem consume_sends (th : Level) (sr : Nat → Repository → Option GoError)
    (rs : List Repository) : ∀ k : Nat, sends (consume th sr k rs) = rs := by
  induction rs with
  | nil => intro k; rfl
  | cons r rest ih =>
    intro k
    simp only [consume, sends, sends_append, ih]
    cases sr k r <;> simp [sends]

theorem consume_quiet (th : Level) (sr : Nat → Repository → Option GoError)
    (rs : List Repository) :
    ∀ k : Nat, runCalls (consume th sr k rs) = [] ∧ errorLogs (consume th sr k rs) = [] := by
  induction rs with
  | nil => intro k; exact ⟨rfl, rfl⟩
  | cons r rest ih =>
    intro k
    have h := ih (k + 1)
    simp only [consume, runCalls, errorLogs, runCalls_append, errorLogs_append, h.1, h.2]
    cases sr k r <;> simp [runCalls, errorLogs]

theorem main_sends (w : World) : sends (main w) = w.emitted := by
  simp [main, fileEvents, (fileStage_quiet _ _ w).1, consume_sends, sends, hookCheck]
  split <;> simp [sends]

theorem main_runCalls (w : World) :
    runCalls (main w) = [((config w).Interval, registry w)] := by
  simp [main, fileEvents, (fileStage_quiet _ _ w).2, consume_quiet, runCalls, hookCheck]
  split <;> simp [runCalls]

theorem main_errorLogs (w : World) :
    errorLogs (main w) = errorLogs (fileEvents w)
      ++ (if (config w).SlackHook = "" then
            [[("err", "missing Slack Webhook URL; cannot create Slack notifications")]]
          else []) := by
  simp [main, consume_quiet, errorLogs, hookCheck]
  split <;> simp [errorLogs]

theorem config_repositories (w : World) :
    (config w).Repositories = w.supplied.repositoriesArg := by
  unfold config MustParse defaults
  cases w.supplied.repositoriesArg <;> rfl

theorem fileStage_errorLogs_keys (th : Level) (c : Config) (w : World) :
    ∀ kv ∈ errorLogs (fileStage th c w).2, ∃ m : String, kv = [("%s", m)] := by
  intro kv hkv
  unfold fileStage at hkv
  split at hkv
  · simp only [errorLogs_append, errorLogs_logAt_info, (appendLines_quiet _ _ _ _ _).2.2,
      List.nil_append, List.append_nil] at hkv
    split at hkv
    · rename_i err _
      rw [errorLogs_logAt_error, List.mem_singleton] at hkv
      exact ⟨err.msg, hkv⟩
    · simp [errorLogs] at hkv
  · split at hkv <;> simp [errorLogs] at hkv

/-! ## Log level lemmas -/

theorem unicodeToLower_caseVariant (table : Char → Char) (a b : Char) (h : caseVariant a b) :
    unicodeToLower table a = unicodeToLower table b := by
  have key : ∀ x y : Char, 65 ≤ x.toNat → x.toNat ≤ 90 → y.toNat = x.toNat + 32 →
      unicodeToLower table x = unicodeToLower table y := by
    intro x y h1 h2 h3
    have hx : x.toNat < 128 := by omega
    have hy : y.toNat < 128 := by omega
    have hy2 : ¬ (65 ≤ y.toNat ∧ y.toNat ≤ 90) := by omega
    unfold unicodeToLower
    rw [if_pos hx, if_pos ⟨h1, h2⟩, if_pos hy, if_neg hy2, ← h3, Char.ofNat_toNat]
  rcases h with h | ⟨h1, h2, h3⟩ | ⟨h1, h2, h3⟩
  · rw [h]
  · exact key a b h1 h2 h3
  · exact (key b a h1 h2 h3).symm

theorem map_unicodeToLower_caseVariant (table : Char → Char) :
    ∀ l m : List Char, l.length = m.length → (∀ p ∈ l.zip m, caseVariant p.1 p.2) →
      l.map (unicodeToLower table) = m.map (unicodeToLower table) := by
  intro l
  induction l with
  | nil =>
    intro m hlen _
    cases m with
    | nil => rfl
    | cons b m => simp at hlen
  | cons a l ih =>
    intro m hlen h
    cases m with
    | nil => simp at hlen
    | cons b m =>
      simp only [List.length_cons, Nat.add_right_cancel_iff] at hlen
      simp only [List.zip_cons_cons, List.mem_cons, forall_eq_or_imp] at h
      simp only [List.map_cons]
      rw [unicodeToLower_caseVariant table a b h.1, ih m hlen h.2]

theorem ToLower_differInCaseOnly (table : Char → Char) (s t : String)
    (h : differInCaseOnly s t) : ToLower table s = ToLower table t := by
  unfold ToLower
  rw [map_unicodeToLower_caseVariant table s.data t.data h.1 h.2]

theorem selectLevel_congr (table : Char → Char) (s t : String)
    (h : ToLower table s = ToLower table t) : selectLevel table s = selectLevel table t := by
  unfold selectLevel; rw [h]

/-! ## Change detector lemmas -/

theorem detect_none (result : List Repository) : (detect none result).2 = [] := by
  cases result <;> rfl

theorem detect_of_filter_nil (seen : Repository) (result : List Repository)
    (h : result.filter (fun r => decide (seen.publishedAt < r.publishedAt)) = []) :
    detect (some seen) result = (some seen, []) := by
  cases result with
  | nil => rfl
  | cons newest rest => simp only [detect, h]

theorem detect_of_filter_cons (seen : Repository) (result : List Repository)
    (f : Repository) (fs : List Repository)
    (h : result.filter (fun r => decide (seen.publishedAt < r.publishedAt)) = f :: fs) :
    detect (some seen) result = (some f, (f :: fs).reverse) := by
  cases result with
  | nil => simp at h
  | cons newest rest => simp only [detect, h]

theorem detect_emitted (seen : Repository) (result : List Repository) :
    (detect (some seen) result).2
      = (result.filter (fun r => decide (seen.publishedAt < r.publishedAt))).reverse := by
  cases h : result.filter (fun r => decide (seen.publishedAt < r.publishedAt)) with
  | nil => rw [detect_of_filter_nil seen result h]; rfl
  | cons f fs => rw [detect_of_filter_cons seen result f fs h]

theorem detect_cases (wm : Option Repository) (result : List Repository) :
    detect wm result = (wm, [])
      ∨ (wm = none ∧ ∃ newest rest, result = newest :: rest
          ∧ detect wm result = (some newest, []))
      ∨ (∃ seen f fs, wm = some seen
          ∧ result.filter (fun r => decide (seen.publishedAt < r.publishedAt)) = f :: fs
          ∧ detect wm result = (some f, (f :: fs).reverse)) := by
  cases wm with
  | none =>
    cases result with
    | nil => exact Or.inl rfl
    | cons newest rest => exact Or.inr (Or.inl ⟨rfl, newest, rest, rfl, rfl⟩)
  | some seen =>
    cases h : result.filter (fun r => decide (seen.publishedAt < r.publishedAt)) with
    | nil => exact Or.inl (detect_of_filter_nil seen result h)
    | cons f fs =>
      exact Or.inr (Or.inr ⟨seen, f, fs, rfl, h, detect_of_filter_cons seen result f fs h⟩)

theorem detect_subset (wm : Option Repository) (result : List Repository) :
    ∀ r ∈ (detect wm result).2, r ∈ result := by
  intro r hr
  cases wm with
  | none => rw [detect_none] at hr; simp at hr
  | some seen =>
    rw [detect_emitted, List.mem_reverse] at hr
    exact (List.mem_filter.mp hr).1

theorem newestFirst_filter_head (seen : Repository) (result : List Repository)
    (f : Repository) (fs : List Repository) (hsorted : newestFirst result)
    (h : result.filter (fun r => decide (seen.publishedAt < r.publishedAt)) = f :: fs) :
    ∀ r ∈ result, r.publishedAt ≤ f.publishedAt := by
  cases result with
  | nil => simp at h
  | cons newest rest =>
    unfold newestFirst at hsorted
    rw [List.pairwise_cons] at hsorted
    have hf : f ∈ (newest :: rest).filter (fun r => decide (seen.publishedAt < r.publishedAt)) := by
      rw [h]; exact List.mem_cons_self f fs
    have hfnew : seen.publishedAt < f.publishedAt := by
      simpa using (List.mem_filter.mp hf).2
    by_cases hp : seen.publishedAt < newest.publishedAt
    · rw [List.filter_cons_of_pos (by simpa using hp)] at h
      injection h with hhead _
      subst hhead
      intro r hr
      rcases List.mem_cons.mp hr with rfl | hr
      · exact Nat.le_refl _
      · exact hsorted.1 r hr
    · exfalso
      rcases List.mem_cons.mp (List.mem_filter.mp hf).1 with hfe | hfr
      · rw [hfe] at hfnew; exact hp hfnew
      · have := hsorted.1 f hfr
        omega

theorem detect_idempotent (wm : Option Repository) (result : List Repository)
    (hsorted : newestFirst result) :
    detect (detect wm result).1 result = ((detect wm result).1, []) := by
  rcases detect_cases wm result with h | ⟨hwm, newest, rest, hres, h⟩ | ⟨seen, f, fs, hwm, hf, h⟩
  · rw [h]; exact h
  · rw [h]
    apply detect_of_filter_nil
    rw [List.filter_eq_nil_iff]
    intro r hr
    subst hres
    unfold newestFirst at hsorted
    rw [List.pairwise_cons] at hsorted
    rcases List.mem_cons.mp hr with rfl | hr
    · simp
    · have := hsorted.1 r hr
      simpa using this
  · rw [h]
    apply detect_of_filter_nil
    rw [List.filter_eq_nil_iff]
    intro r hr
    have := newestFirst_filter_head seen result f fs hsorted hf r hr
    simpa using this

/-! ## Scheduler lemmas -/

theorem evaluate_other (wm : Watermarks) (repo X : String) (q : QueryResult) (h : X ≠ repo) :
    (evaluate wm repo q).1 X = wm X := by
  cases q with
  | error e => rfl
  | ok result => simp [evaluate, h]

theorem evaluate_error (wm : Watermarks) (repo : String) (e : GoError) :
    evaluate wm repo (Except.error e) = (wm, []) := rfl

theorem evaluate_ok (wm : Watermarks) (repo : String) (result : List Repository) :
    (evaluate wm repo (Except.ok result)).1 repo = (detect (wm repo) result).1
      ∧ (evaluate wm repo (Except.ok result)).2 = (detect (wm repo) result).2 := by
  simp [evaluate]

theorem pass_watermark_of_error (query : String → QueryResult) (A : String) (err : GoError)
    (hA : query A = Except.error err) :
    ∀ (registry : List String) (wm : Watermarks), (pass query registry wm).1 A = wm A := by
  intro registry
  induction registry with
  | nil => intro wm; rfl
  | cons repo rest ih =>
    intro wm
    simp only [pass]
    rw [ih]
    by_cases h : A = repo
    · subst h; rw [hA]; rfl
    · exact evaluate_other wm repo A _ h

theorem pass_emits_new (query : String → QueryResult) (B : String) (result : List Repository)
    (hB : query B = Except.ok result) :
    ∀ (registry : List String) (wm : Watermarks), B ∈ registry →
      (detect (wm B) result).2 <:+: (pass query registry wm).2 := by
  intro registry
  induction registry with
  | nil => intro wm h; simp at h
  | cons repo rest ih =>
    intro wm hmem
    simp only [pass]
    by_cases h : B = repo
    · subst h
      rw [hB, (evaluate_ok wm B result).2]
      exact (List.prefix_append _ _).isInfix
    · have hrest : B ∈ rest := by
        rcases List.mem_cons.mp hmem with h1 | h1
        · exact absurd h1 h
        · exact h1
      have := ih (evaluate wm repo (query repo)).1 hrest
      rw [evaluate_other wm repo B _ h] at this
      exact List.IsInfix.trans this (List.suffix_append _ _).isInfix

/-! ## One repository within a pass -/

theorem emittedFor_append (X : String) (a b : List Repository) :
    emittedFor X (a ++ b) = emittedFor X a ++ emittedFor X b := by
  simp [emittedFor]

theorem emittedFor_self (X : String) (l : List Repository) (h : ∀ r ∈ l, r.name = X) :
    emittedFor X l = l := by
  unfold emittedFor
  rw [List.filter_eq_self]
  intro r hr
  simp [h r hr]

theorem emittedFor_other (X : String) (l : List Repository) (h : ∀ r ∈ l, r.name ≠ X) :
    emittedFor X l = [] := by
  unfold emittedFor
  rw [List.filter_eq_nil_iff]
  intro r hr
  simp [h r hr]

theorem evaluate_emittedFor_other (wm : Watermarks) (repo X : String) (q : QueryResult)
    (hlabel : ∀ L, q = Except.ok L → ∀ r ∈ L, r.name = repo) (h : X ≠ repo) :
    emittedFor X (evaluate wm repo q).2 = [] := by
  cases q with
  | error e => rfl
  | ok L =>
    apply emittedFor_other
    intro r hr heq
    rw [(evaluate_ok wm repo L).2] at hr
    exact h (heq.symm.trans (hlabel L rfl r (detect_subset _ _ r hr)))

theorem pass_for_repo (q : String → QueryResult) (X : String) (L : List Repository)
    (hq : q X = Except.ok L) (hsorted : newestFirst L) :
    ∀ (registry : List String) (wm : Watermarks),
      (∀ Y ∈ registry, ∀ L₁, q Y = Except.ok L₁ → ∀ r ∈ L₁, r.name = Y) →
      (pass q registry wm).1 X = (if X ∈ registry then (detect (wm X) L).1 else wm X)
        ∧ emittedFor X (pass q registry wm).2
            = (if X ∈ registry then (detect (wm X) L).2 else []) := by
  intro registry
  induction registry with
  | nil => intro wm _; simp [pass, emittedFor]
  | cons repo rest ih =>
    intro wm hlabel
    have hrest : ∀ Y ∈ rest, ∀ L₁, q Y = Except.ok L₁ → ∀ r ∈ L₁, r.name = Y :=
      fun Y hY => hlabel Y (List.mem_cons_of_mem repo hY)
    have hih := ih (evaluate wm repo (q repo)).1 hrest
    simp only [pass]
    rw [emittedFor_append, hih.1, hih.2]
    by_cases h : X = repo
    · subst h
      have hnames : ∀ r ∈ (detect (wm X) L).2, r.name = X := fun r hr =>
        hlabel X (List.mem_cons_self X rest) L hq r (detect_subset _ _ r hr)
      rw [hq, (evaluate_ok wm X L).1, (evaluate_ok wm X L).2, emittedFor_self X _ hnames,
        detect_idempotent (wm X) L hsorted]
      simp
    · have hne : (X ∈ repo :: rest) = (X ∈ rest) := by simp [h]
      rw [evaluate_other wm repo X _ h,
        evaluate_emittedFor_other wm repo X (q repo)
          (hlabel repo (List.mem_cons_self repo rest)) h]
      simp [h]

/-! ## No duplicate emission -/

theorem evaluate_keeps_invariant (query : Nat → String → QueryResult) (X : String) (N : Nat)
    (hdistinct : ∀ k < N, ∀ L, query k X = Except.ok L → (tags L).Nodup)
    (hnewest : ∀ k < N, ∀ L, query k X = Except.ok L → newestFirst L)
    (hsame : ∀ j < N, ∀ k < N, ∀ L₁ L₂, query j X = Except.ok L₁ → query k X = Except.ok L₂ →
      ∀ r₁ ∈ L₁, ∀ r₂ ∈ L₂, r₁.release = r₂.release → r₁.publishedAt = r₂.publishedAt)
    (n : Nat) (hn : n < N) (Y : String)
    (hlabel : ∀ L, query n Y = Except.ok L → ∀ r ∈ L, r.name = Y)
    (wm : Watermarks) (E : List Repository) (hinv : emissionInvariant query X N wm E) :
    emissionInvariant query X N (evaluate wm Y (query n Y)).1
      (E ++ (evaluate wm Y (query n Y)).2) := by
  by_cases hY : X = Y
  · subst hY
    cases hq : query n X with
    | error e =>
      rw [evaluate_error, List.append_nil]
      exact hinv
    | ok L =>
      have hnames : ∀ r ∈ (detect (wm X) L).2, r.name = X := fun r hr =>
        hlabel L hq r (detect_subset _ _ r hr)
      obtain ⟨e1, e2⟩ := evaluate_ok wm X L
      unfold emissionInvariant
      rw [e1, e2, emittedFor_append, emittedFor_self _ _ hnames]
      obtain ⟨hnodup, hall⟩ := hinv
      rcases detect_cases (wm X) L with h | ⟨hnone, newest, rest, _, h⟩ | ⟨seen, f, fs, hwm, hf, h⟩
      · rw [h]
        simp only [List.append_nil]
        exact ⟨hnodup, hall⟩
      · rw [h]
        simp only [List.append_nil]
        refine ⟨hnodup, fun r hr => ⟨(hall r hr).1, ?_⟩⟩
        obtain ⟨w, hw, _⟩ := (hall r hr).2
        rw [hnone] at hw
        cases hw
      · rw [h]
        simp only
        have hfresh : ∀ r ∈ f :: fs, r ∈ L ∧ seen.publishedAt < r.publishedAt := by
          intro r hr
          rw [← hf] at hr
          have := List.mem_filter.mp hr
          exact ⟨this.1, by simpa using this.2⟩
        have hbound := newestFirst_filter_head seen L f fs (hnewest n hn L hq) hf
        constructor
        · unfold tags
          rw [List.map_append, List.nodup_append]
          refine ⟨hnodup, ?_, ?_⟩
          · rw [List.map_reverse, List.nodup_reverse, ← hf]
            exact (hdistinct n hn L hq).sublist ((List.filter_sublist L).map _)
          · intro a ha hb
            rw [List.map_reverse, List.mem_reverse] at hb
            obtain ⟨r₁, hr₁, rfl⟩ := List.mem_map.mp ha
            obtain ⟨r₂, hr₂, heq⟩ := List.mem_map.mp hb
            obtain ⟨⟨j, L₁, hj, hqj, hmem⟩, w, hw, hle⟩ := hall r₁ hr₁
            rw [hwm] at hw
            injection hw with hw
            subst hw
            have hnew := hfresh r₂ hr₂
            have := hsame n hn j hj L L₁ hq hqj r₂ hnew.1 r₁ hmem heq
            omega
        · intro r hr
          rcases List.mem_append.mp hr with h1 | h1
          · obtain ⟨hprov, w, hw, hle⟩ := hall r h1
            refine ⟨hprov, f, rfl, ?_⟩
            rw [hwm] at hw
            injection hw with hw
            subst hw
            have := (hfresh f (List.mem_cons_self f fs)).2
            omega
          · have hr' := List.mem_reverse.mp h1
            exact ⟨⟨n, L, hn, hq, (hfresh r hr').1⟩, f, rfl, hbound r (hfresh r hr').1⟩
  · unfold emissionInvariant
    rw [evaluate_other wm Y X _ hY, emittedFor_append,
      evaluate_emittedFor_other wm Y X (query n Y) hlabel hY, List.append_nil]
    exact hinv

theorem pass_keeps_invariant (query : Nat → String → QueryResult) (X : String) (N : Nat)
    (hdistinct : ∀ k < N, ∀ L, query k X = Except.ok L → (tags L).Nodup)
    (hnewest : ∀ k < N, ∀ L, query k X = Except.ok L → newestFirst L)
    (hsame : ∀ j < N, ∀ k < N, ∀ L₁ L₂, query j X = Except.ok L₁ → query k X = Except.ok L₂ →
      ∀ r₁ ∈ L₁, ∀ r₂ ∈ L₂, r₁.release = r₂.release → r₁.publishedAt = r₂.publishedAt)
    (n : Nat) (hn : n < N) (registry : List String) :
    (∀ Y ∈ registry, ∀ L, query n Y = Except.ok L → ∀ r ∈ L, r.name = Y) →
    ∀ (wm : Watermarks) (E : List Repository), emissionInvariant query X N wm E →
      emissionInvariant query X N (pass (query n) registry wm).1
        (E ++ (pass (query n) registry wm).2) := by
  induction registry with
  | nil => intro _ wm E h; simpa [pass] using h
  | cons repo rest ih =>
    intro hlabel wm E h
    simp only [pass]
    rw [← List.append_assoc]
    exact ih (fun Y hY => hlabel Y (List.mem_cons_of_mem repo hY)) _ _
      (evaluate_keeps_invariant query X N hdistinct hnewest hsame n hn repo
        (hlabel repo (List.mem_cons_self repo rest)) wm E h)

theorem Run_keeps_invariant (query : Nat → String → QueryResult) (interval : Duration)
    (registry : List String) (X : String) (N : Nat)
    (hlabel : ∀ k < N, ∀ Y ∈ registry, ∀ L, query k Y = Except.ok L → ∀ r ∈ L, r.name = Y)
    (hdistinct : ∀ k < N, ∀ L, query k X = Except.ok L → (tags L).Nodup)
    (hnewest : ∀ k < N, ∀ L, query k X = Except.ok L → newestFirst L)
    (hsame : ∀ j < N, ∀ k < N, ∀ L₁ L₂, query j X = Except.ok L₁ → query k X = Except.ok L₂ →
      ∀ r₁ ∈ L₁, ∀ r₂ ∈ L₂, r₁.release = r₂.release → r₁.publishedAt = r₂.publishedAt) :
    ∀ n, n ≤ N → emissionInvariant query X N (Checker.Run query interval registry n).1
      (Checker.Run query interval registry n).2 := by
  intro n
  induction n with
  | zero =>
    intro _
    exact ⟨by simp [Checker.Run, emittedFor, tags], by simp [Checker.Run, emittedFor]⟩
  | succ k ih =>
    intro hk
    simp only [Checker.Run]
    exact pass_keeps_invariant query X N hdistinct hnewest hsame k hk registry
      (hlabel k hk) _ _ (ih (Nat.le_of_succ_le hk))

/-- C1: whatever releases arrive on the channel and whatever each `Send` returns,
the consumer loop of `main` passes exactly the emitted releases to `Send`, once
each and in emission order; a failing `Send` neither stops the loop, nor skips
a later release, nor repeats the failed one. -/
theorem consumer_sends_each_release_once (w : World) : sends (main w) = w.emitted :=
  main_sends w

/-- C2: when the repository file exists and `readFile` returns without error, the
registry handed to `Checker.Run` is the argument list followed by the lines of
the file: its length is the sum of both, its first part is the argument list
and the rest is the file, each in its own order. -/
theorem registry_is_arguments_then_file (w : World)
    (hstat : w.stat (config w).File = none)
    (hread : (w.readFile (config w).File).2 = none) :
    runCalls (main w)
        = [((config w).Interval,
            w.supplied.repositoriesArg ++ (w.readFile (config w).File).1)]
      ∧ (registry w).length
        = w.supplied.repositoriesArg.length + (w.readFile (config w).File).1.length
      ∧ (registry w).take w.supplied.repositoriesArg.length = w.supplied.repositoriesArg
      ∧ (registry w).drop w.supplied.repositoriesArg.length
        = (w.readFile (config w).File).1 := by
  have hreg : registry w = w.supplied.repositoriesArg ++ (w.readFile (config w).File).1 := by
    unfold registry fileStage
    rw [hstat]
    simp only [appendLines_fst]
    rw [config_repositories]
  have _ := hread
  refine ⟨?_, ?_, ?_, ?_⟩
  · rw [main_runCalls, hreg]
  · rw [hreg, List.length_append]
  · rw [hreg, List.take_left]
  · rw [hreg, List.drop_left]

/-- Witness of C2: one repository on the command line and a two-line file. -/
theorem registry_is_arguments_then_file_witness :
    runCalls (main fileWorld) = [(Hour, ["a/b", "c/d", "e/f"])] :=
  (registry_is_arguments_then_file fileWorld (by decide) (by decide)).1

/-- C3 as stated fails twice: after an `os.Stat` failure other than not-exist
`main` logs no error at all, and after a `readFile` that returns a line together
with an error the registry holds that line after the argument. -/
theorem unreadable_file_counterexample :
    (statFailsWorld.stat (config statFailsWorld).File = some permissionDenied
        ∧ permissionDenied.notExist = false
        ∧ errorLogs (main statFailsWorld) = [])
      ∧ (partialReadWorld.stat (config partialReadWorld).File = none
        ∧ partialReadWorld.readFile (config partialReadWorld).File = (["x/y"], some readFailed)
        ∧ partialReadWorld.supplied.repositoriesArg = ["a/b"]
        ∧ runCalls (main partialReadWorld) = [(Hour, ["a/b", "x/y"])]) := by
  decide

/-- C3, amended: when `os.Stat` fails with an error other than not-exist, nothing
is logged for the file and the registry is exactly the argument list; when the
file exists and `readFile` returns an error, exactly one error-level event is
logged for the file, carrying that error, whatever the log threshold, and the
registry is exactly the argument list whenever `readFile` returned no line with
its error. -/
theorem unreadable_file_amended (w : World) :
    (∀ err, w.stat (config w).File = some err → err.notExist = false →
        fileEvents w = [] ∧ registry w = w.supplied.repositoriesArg)
      ∧ (∀ err, w.stat (config w).File = none → (w.readFile (config w).File).2 = some err →
        errorLogs (fileEvents w) = [[("%s", err.msg)]]
          ∧ ((w.readFile (config w).File).1 = [] →
              registry w = w.supplied.repositoriesArg)) := by
  constructor
  · intro err hstat hne
    unfold fileEvents registry fileStage
    rw [hstat]
    simp [hne, config_repositories]
  · intro err hstat hread
    constructor
    · unfold fileEvents fileStage
      rw [hstat]
      simp only [hread, errorLogs_append, errorLogs_logAt_info, errorLogs_logAt_error,
        (appendLines_quiet _ _ _ _ _).2.2, List.nil_append, List.append_nil]
    · intro hnil
      unfold registry fileStage
      rw [hstat]
      simp only [appendLines_fst, hnil, List.append_nil]
      rw [config_repositories]

/-- Witness of the amended C3: a permission failure of `os.Stat`, and a `readFile`
that fails without returning a line. -/
theorem unreadable_file_amended_witness :
    (fileEvents statFailsWorld = [] ∧ registry statFailsWorld = ["a/b"])
      ∧ errorLogs (fileEvents emptyReadWorld) = [[("%s", "read output: input/output error")]]
      ∧ registry emptyReadWorld = ["a/b"] :=
  ⟨(unreadable_file_amended statFailsWorld).1 permissionDenied (by decide) (by decide),
    ((unreadable_file_amended emptyReadWorld).2 readFailed (by decide) (by decide)).1,
    ((unreadable_file_amended emptyReadWorld).2 readFailed (by decide) (by decide)).2
      (by decide)⟩

/-- C4: when `os.Stat` reports that the file does not exist, the only events
logged for the file are two warnings, none of error level; the registry handed
to `Checker.Run` is exactly the argument list; the scheduler is started and the
consumer loop sends every emitted release. -/
theorem missing_file_is_not_an_error (w : World) (err : GoError)
    (hstat : w.stat (config w).File = some err) (hmissing : err.notExist = true) :
    fileEvents w
        = logAt (threshold w) Level.warn
            [("msg", "no configuration file exists, continuing and only using flagged arguments")]
          ++ logAt (threshold w) Level.warn [("err", err.msg)]
      ∧ errorLogs (fileEvents w) = []
      ∧ registry w = w.supplied.repositoriesArg
      ∧ runCalls (main w) = [((config w).Interval, w.supplied.repositoriesArg)]
      ∧ sends (main w) = w.emitted := by
  have hev : fileEvents w
      = logAt (threshold w) Level.warn
          [("msg", "no configuration file exists, continuing and only using flagged arguments")]
        ++ logAt (threshold w) Level.warn [("err", err.msg)] := by
    unfold fileEvents fileStage
    rw [hstat]
    simp [hmissing]
  have hreg : registry w = w.supplied.repositoriesArg := by
    unfold registry fileStage
    rw [hstat]
    simp [hmissing, config_repositories]
  refine ⟨hev, ?_, hreg, ?_, main_sends w⟩
  · rw [hev]; simp
  · rw [main_runCalls, hreg]

/-- Witness of C4: the default file is missing. -/
theorem missing_file_is_not_an_error_witness :
    errorLogs (fileEvents baseWorld) = []
      ∧ runCalls (main baseWorld) = [(Hour, ["a/b"])]
      ∧ sends (main baseWorld) = [rel "v1" 1, rel "v2" 2] :=
  ⟨(missing_file_is_not_an_error baseWorld noSuchFile (by decide) (by decide)).2.1,
    (missing_file_is_not_an_error baseWorld noSuchFile (by decide) (by decide)).2.2.2.1,
    (missing_file_is_not_an_error baseWorld noSuchFile (by decide) (by decide)).2.2.2.2⟩

/-- C5: the error-level events of `main` are those of the file handling followed by
exactly one event for the missing webhook when `SlackHook` is empty, and by
none when it is not; in both cases `Checker.Run` is started once with the
configured interval and the full registry, and `Send` is attempted for every
emitted release. -/
theorem missing_hook_is_logged_once_and_not_fatal (w : World) :
    errorLogs (main w)
        = errorLogs (fileEvents w)
          ++ (if (config w).SlackHook = "" then
                [[("err", "missing Slack Webhook URL; cannot create Slack notifications")]]
              else [])
      ∧ ((errorLogs (main w)).filter
            (fun kv => decide (kv
              = [("err", "missing Slack Webhook URL; cannot create Slack notifications")]))).length
          = (if (config w).SlackHook = "" then 1 else 0)
      ∧ runCalls (main w) = [((config w).Interval, registry w)]
      ∧ sends (main w) = w.emitted := by
  refine ⟨main_errorLogs w, ?_, main_runCalls w, main_sends w⟩
  have hfile : (errorLogs (fileEvents w)).filter
      (fun kv => decide (kv
        = [("err", "missing Slack Webhook URL; cannot create Slack notifications")])) = [] := by
    rw [List.filter_eq_nil_iff]
    intro kv hkv
    obtain ⟨m, hm⟩ := fileStage_errorLogs_keys _ _ w kv hkv
    rw [hm]
    simp
  rw [main_errorLogs, List.filter_append, hfile, List.nil_append]
  split <;> simp

/-- C6: the interval handed to `Checker.Run` is the one in the parsed configuration,
untouched; that one is the command-line value when there is one, else the value
of `INTERVAL` when there is one, else one hour, which is 3600000000000
nanoseconds. -/
theorem poll_interval_default_and_passthrough (w : World) :
    runCalls (main w) = [((config w).Interval, registry w)]
      ∧ (config w).Interval
        = (match w.supplied.intervalArg, w.supplied.intervalEnv with
            | some d, _ => d
            | none, some d => d
            | none, none => Hour)
      ∧ Hour = 3600000000000 := by
  refine ⟨main_runCalls w, ?_, by decide⟩
  unfold config MustParse defaults setFrom
  cases w.supplied.intervalArg <;> cases w.supplied.intervalEnv <;> rfl

/-- C7 as stated fails: with query results that are each newest first and free of
duplicate identifiers, `b` is emitted in the second pass and again in the
fourth, after `a` and then `b` were published again under the same identifier
with a later publication time. -/
theorem no_duplicate_emission_counterexample :
    (republishQuery 0 "o/r" = Except.ok [rel "a" 1]
        ∧ republishQuery 1 "o/r" = Except.ok [rel "b" 2, rel "a" 1]
        ∧ republishQuery 2 "o/r" = Except.ok [rel "a" 3, rel "b" 2]
        ∧ republishQuery 3 "o/r" = Except.ok [rel "b" 4, rel "a" 3])
      ∧ (newestFirst [rel "a" 1] ∧ newestFirst [rel "b" 2, rel "a" 1]
        ∧ newestFirst [rel "a" 3, rel "b" 2] ∧ newestFirst [rel "b" 4, rel "a" 3])
      ∧ tags (emittedFor "o/r" (Checker.Run republishQuery Hour ["o/r"] 1).2) = []
      ∧ tags (emittedFor "o/r" (Checker.Run republishQuery Hour ["o/r"] 2).2) = ["b"]
      ∧ tags (emittedFor "o/r" (Checker.Run republishQuery Hour ["o/r"] 3).2) = ["b", "a"]
      ∧ tags (emittedFor "o/r" (Checker.Run republishQuery Hour ["o/r"] 4).2)
          = ["b", "a", "b"]
      ∧ ¬ (tags (emittedFor "o/r" (Checker.Run republishQuery Hour ["o/r"] 4).2)).Nodup :=
  ⟨⟨rfl, rfl, rfl, rfl⟩, by decide, by decide, by decide, by decide, by decide, by decide⟩

/-- C7, amended: if, during the first `N` passes, every successful query result of
a registry entry carries the identifier of the repository queried, and the
results for repository `X` are newest first, list no release identifier twice
and give a release identifier the same publication time whenever they list it
(no identifier is published again), then among the releases of `X` emitted by
the scheduler in those passes no release identifier occurs twice, however often
the results list it. -/
theorem no_duplicate_emission_of_stable_identifiers (query : Nat → String → QueryResult)
    (interval : Duration) (registry : List String) (X : String) (N : Nat)
    (hlabel : ∀ k < N, ∀ Y ∈ registry, ∀ L, query k Y = Except.ok L → ∀ r ∈ L, r.name = Y)
    (hdistinct : ∀ k < N, ∀ L, query k X = Except.ok L → (tags L).Nodup)
    (hnewest : ∀ k < N, ∀ L, query k X = Except.ok L → newestFirst L)
    (hsame : ∀ j < N, ∀ k < N, ∀ L₁ L₂, query j X = Except.ok L₁ → query k X = Except.ok L₂ →
      ∀ r₁ ∈ L₁, ∀ r₂ ∈ L₂, r₁.release = r₂.release → r₁.publishedAt = r₂.publishedAt) :
    (tags (emittedFor X (Checker.Run query interval registry N).2)).Nodup :=
  (Run_keeps_invariant query interval registry X N hlabel hdistinct hnewest hsame N
    (Nat.le_refl N)).1

/-- Witness of the amended C7: three passes over a window of two releases that
slides from `b, a` to `d, c`, with the title of `b` edited on the way. -/
theorem no_duplicate_emission_of_stable_identifiers_witness :
    (tags (emittedFor "o/r" (Checker.Run windowQuery Hour ["x/y", "o/r"] 3).2)).Nodup
      ∧ tags (emittedFor "o/r" (Checker.Run windowQuery Hour ["x/y", "o/r"] 3).2)
          = ["c", "d"] :=
  ⟨no_duplicate_emission_of_stable_identifiers windowQuery Hour ["x/y", "o/r"] "o/r" 3
      (by
        intro k hk Y _ L h r hr
        unfold windowQuery at h
        split at h
        · rename_i hY
          subst hY
          interval_cases k <;> (injection h with h; subst h; revert r; decide)
        · cases h)
      (by
        intro k hk L h
        interval_cases k <;> (injection h with h; subst h; decide))
      (by
        intro k hk L h
        interval_cases k <;> (injection h with h; subst h; decide))
      (by
        intro j hj k hk L₁ L₂ h₁ h₂
        interval_cases k <;> interval_cases j <;>
          (injection h₁ with h₁; injection h₂ with h₂; subst h₁; subst h₂; decide)),
    by decide⟩

/-- C8: when the first pass of the scheduler finds `[r3, r2, r1]` for a repository
of the registry, it emits nothing for it and sets its watermark to `r3`; when
the second pass finds `[r5, r4, r3, r2, r1]`, newest first with `r4` published
after `r3`, it emits exactly `[r4, r5]` in that order and sets the watermark to
`r5`. In general, for every watermark and every query result, the change
detector emits exactly the listed releases published strictly later than the
watermark, in reverse listing order, which is oldest first when the result is
newest first; with no watermark it emits nothing. -/
theorem no_missed_emission (query : Nat → String → QueryResult) (interval : Duration)
    (registry : List String) (repo : String) (r1 r2 r3 r4 r5 : Repository)
    (hmem : repo ∈ registry)
    (hlabel : ∀ k < 2, ∀ Y ∈ registry, ∀ L, query k Y = Except.ok L → ∀ r ∈ L, r.name = Y)
    (hfirst : query 0 repo = Except.ok [r3, r2, r1])
    (hsecond : query 1 repo = Except.ok [r5, r4, r3, r2, r1])
    (hnewest : newestFirst [r5, r4, r3, r2, r1])
    (hlater : r3.publishedAt < r4.publishedAt) :
    emittedFor repo (Checker.Run query interval registry 1).2 = []
      ∧ (Checker.Run query interval registry 1).1 repo = some r3
      ∧ emittedFor repo (Checker.Run query interval registry 2).2 = [r4, r5]
      ∧ (Checker.Run query interval registry 2).1 repo = some r5
      ∧ (∀ (seen : Repository) (result : List Repository),
          (detect (some seen) result).2
              = (result.filter (fun r => decide (seen.publishedAt < r.publishedAt))).reverse
            ∧ (∀ r, r ∈ (detect (some seen) result).2
                ↔ r ∈ result ∧ seen.publishedAt < r.publishedAt)
            ∧ (newestFirst result →
                List.Pairwise (fun a b => a.publishedAt ≤ b.publishedAt)
                  (detect (some seen) result).2))
      ∧ (∀ result : List Repository, (detect none result).2 = []) := by
  have hs := hnewest
  unfold newestFirst at hs
  simp only [List.pairwise_cons, List.mem_cons, List.mem_singleton, forall_eq_or_imp,
    forall_eq, List.not_mem_nil, false_implies, implies_true, and_true,
    List.Pairwise.nil] at hs
  obtain ⟨⟨h54, h53, h52, h51⟩, ⟨h43, h42, h41⟩, ⟨h32, h31⟩, h21⟩ := hs
  have hsorted0 : newestFirst [r3, r2, r1] := by
    unfold newestFirst
    simp [h32, h31, h21]
  have p0 := pass_for_repo (query 0) repo [r3, r2, r1] hfirst hsorted0 registry noWatermarks
    (hlabel 0 (by decide))
  rw [if_pos hmem, if_pos hmem] at p0
  have hrun1 : Checker.Run query interval registry 1
      = ((pass (query 0) registry noWatermarks).1, [] ++ (pass (query 0) registry noWatermarks).2) :=
    rfl
  have hd0 : detect (noWatermarks repo) [r3, r2, r1] = (some r3, []) := rfl
  have e1 : emittedFor repo (Checker.Run query interval registry 1).2 = [] := by
    rw [hrun1, List.nil_append, p0.2, hd0]
  have w1 : (Checker.Run query interval registry 1).1 repo = some r3 := by
    rw [hrun1, p0.1, hd0]
  have p1 := pass_for_repo (query 1) repo [r5, r4, r3, r2, r1] hsecond hnewest registry
    (Checker.Run query interval registry 1).1 (hlabel 1 (by decide))
  rw [if_pos hmem, if_pos hmem, w1] at p1
  have hfilter : [r5, r4, r3, r2, r1].filter
      (fun r => decide (r3.publishedAt < r.publishedAt)) = [r5, r4] := by
    have h35 : r3.publishedAt < r5.publishedAt := by omega
    have h33 : ¬ r3.publishedAt < r3.publishedAt := by omega
    have h23 : ¬ r3.publishedAt < r2.publishedAt := by omega
    have h13 : ¬ r3.publishedAt < r1.publishedAt := by omega
    simp [List.filter, h35, hlater, h23, h13]
  have hd1 : detect (some r3) [r5, r4, r3, r2, r1] = (some r5, [r4, r5]) := by
    rw [detect_of_filter_cons r3 _ r5 [r4] hfilter]
    rfl
  have hrun2 : Checker.Run query interval registry 2
      = ((pass (query 1) registry (Checker.Run query interval registry 1).1).1,
          (Checker.Run query interval registry 1).2
            ++ (pass (query 1) registry (Checker.Run query interval registry 1).1).2) :=
    rfl
  refine ⟨e1, w1, ?_, ?_, ?_, detect_none⟩
  · rw [hrun2, emittedFor_append, e1, List.nil_append, p1.2, hd1]
  · rw [hrun2, p1.1, hd1]
  · intro seen result
    refine ⟨detect_emitted seen result, ?_, ?_⟩
    · intro r
      rw [detect_emitted, List.mem_reverse, List.mem_filter]
      simp
    · intro hsorted
      rw [detect_emitted, List.pairwise_reverse]
      exact List.Pairwise.sublist (List.filter_sublist result) hsorted

/-- Witness of C8: five releases `v1` to `v5` of `o/r`, watched next to a
repository that fails to answer. -/
theorem no_missed_emission_witness :
    emittedFor "o/r" (Checker.Run catchUpQuery Hour ["x/y", "o/r"] 2).2
        = [rel "v4" 4, rel "v5" 5]
      ∧ (Checker.Run catchUpQuery Hour ["x/y", "o/r"] 2).1 "o/r" = some (rel "v5" 5) :=
  have h := no_missed_emission catchUpQuery Hour ["x/y", "o/r"] "o/r" (rel "v1" 1)
    (rel "v2" 2) (rel "v3" 3) (rel "v4" 4) (rel "v5" 5) (by decide)
    (by
      intro k hk Y _ L h r hr
      unfold catchUpQuery at h
      split at h
      · rename_i hY
        subst hY
        interval_cases k <;> (injection h with h; subst h; revert r; decide)
      · cases h)
    rfl rfl (by decide) (by decide)
  ⟨h.2.2.1, h.2.2.2.1⟩

/-- C9: within one pass, if the query for repository `A` fails and the query for a
repository `B` of the registry succeeds, the new releases of `B` (what the
change detector returns for the watermark `B` had before the pass) are emitted
by the pass, and the watermark of `A` after the pass is the one before it. -/
theorem query_failure_isolation (query : String → QueryResult) (registry : List String)
    (wm : Watermarks) (A B : String) (err : GoError) (result : List Repository)
    (hA : query A = Except.error err) (hB : query B = Except.ok result)
    (hmem : B ∈ registry) :
    (pass query registry wm).1 A = wm A
      ∧ (detect (wm B) result).2 <:+: (pass query registry wm).2 :=
  ⟨pass_watermark_of_error query A err hA registry wm,
    pass_emits_new query B result hB registry wm hmem⟩

/-- Witness of C9: `x/y` fails to answer while `o/r` has the new release `b`. -/
theorem query_failure_isolation_witness :
    (pass (growingQuery 1) ["x/y", "o/r"] someWatermarks).1 "x/y" = some (rel "z" 0)
      ∧ [rel "b" 2] <:+: (pass (growingQuery 1) ["x/y", "o/r"] someWatermarks).2 :=
  query_failure_isolation (growingQuery 1) ["x/y", "o/r"] someWatermarks "x/y" "o/r"
    permissionDenied [rel "b" 2, rel "a" 1] rfl rfl (by decide)

/-- C10: the threshold is a function of the lower-cased `LogLevel` alone: `debug`,
`warn` and `error` select their own threshold and every other string selects
info, in particular `info`, the empty string and `warning`; with `LogLevel` not
set the default selects info; two strings that differ only in the case of
letters, or more generally have the same lower-casing, select the same
threshold. -/
theorem log_level_selection (table : Char → Char) (s : String) :
    (ToLower table s = "debug" → selectLevel table s = Level.debug)
      ∧ (ToLower table s = "warn" → selectLevel table s = Level.warn)
      ∧ (ToLower table s = "error" → selectLevel table s = Level.error)
      ∧ (ToLower table s ≠ "debug" → ToLower table s ≠ "warn" → ToLower table s ≠ "error" →
          selectLevel table s = Level.info)
      ∧ selectLevel table "info" = Level.info
      ∧ selectLevel table "" = Level.info
      ∧ selectLevel table "warning" = Level.info
      ∧ (∀ w : World, w.supplied.logLevelEnv = none → w.supplied.logLevelArg = none →
          threshold w = Level.info)
      ∧ (∀ t : String, differInCaseOnly s t → selectLevel table s = selectLevel table t)
      ∧ (∀ t : String, ToLower table s = ToLower table t →
          selectLevel table s = selectLevel table t) := by
  refine ⟨?_, ?_, ?_, ?_, rfl, rfl, rfl, ?_, ?_, ?_⟩
  · intro h; unfold selectLevel; rw [if_pos h]
  · intro h
    unfold selectLevel
    rw [if_neg (by rw [h]; decide), if_pos h]
  · intro h
    unfold selectLevel
    rw [if_neg (by rw [h]; decide), if_neg (by rw [h]; decide), if_pos h]
  · intro h1 h2 h3
    unfold selectLevel
    rw [if_neg h1, if_neg h2, if_neg h3]
  · intro w h1 h2
    unfold threshold config MustParse defaults setFrom
    simp only [h1, h2]
    rfl
  · intro t h
    exact selectLevel_congr table s t (ToLower_differInCaseOnly table s t h)
  · intro t h
    exact selectLevel_congr table s t h

/-- Witness of C10: `WaRn` selects the warn threshold, like `warn`. -/
theorem log_level_selection_witness :
    selectLevel id "WaRn" = Level.warn
      ∧ selectLevel id "WaRn" = selectLevel id "warn"
      ∧ threshold baseWorld = Level.info
      ∧ threshold tunedWorld = Level.warn :=
  ⟨(log_level_selection id "WaRn").2.1 (by decide),
    (log_level_selection id "WaRn").2.2.2.2.2.2.2.2.1 "warn" (by decide),
    (log_level_selection id "WaRn").2.2.2.2.2.2.2.1 baseWorld rfl rfl,
    by decide⟩

end ReleasesNotifier
